import Mathlib

/-!
Verification of the `win-spellcheck-rs` wrapper (`src/lib.rs`).

The library is a thin client over the Windows spellchecking COM service.
We embed it shallowly:

* The external COM objects are modelled as records of deterministic
  functions.  A fallible COM call (one that returns an `HRESULT` consumed
  with `.ok()?` in Rust) is a field of type `Option _`; `none` means the
  call failed.
* An `ISpellChecker` handle provides `ComprehensiveCheck` (returning the
  error enumerator, modelled as the list of errors it will yield before
  its first non-success `Next` status) and `Suggest` (returning the
  suggestion enumerator, modelled as the list of slots its `Next` calls
  fill: `some p` is a non-null `PWSTR`, `none` is a null entry).
* A `PWSTR` buffer carries an identity (`ptr`) and the result of the
  Rust-side `to_string()` conversion (`contents`; `none` = conversion
  failure).
* Rust control flow is modelled with `CallResult`: `.ok v` is
  `Some(v)`, `.fail` is an early `return None` via `?`, and `.panic` is a
  Rust panic.
* `check` is additionally instrumented with a ghost trace of buffer
  events: `Event.acquire p` when a native string buffer is obtained from
  the service, `Event.free p` when `CoTaskMemFree` is called on it.  The
  trace changes nothing about the returned value; it only records the
  memory-management behaviour of the exact same control flow.
* Rust's `&text[start..end]` string slicing is byte-based UTF-8 slicing
  that panics when an index is out of bounds or not a character
  boundary; `sliceBytes` models it over `List Char` with explicit UTF-8
  byte sizes.
-/

/-- Result of running a fragment of Rust code: a value, an early
`return None` (the `?` operator), or a panic. -/
inductive CallResult (α : Type) where
  | panic : CallResult α
  | fail : CallResult α
  | ok : α → CallResult α
deriving DecidableEq, Repr

def CallResult.map {α β : Type} (f : α → β) : CallResult α → CallResult β
  | .panic => .panic
  | .fail => .fail
  | .ok a => .ok (f a)

/-- A native wide-string buffer returned by the service (`PWSTR`).
`ptr` is its identity; `contents` is what the Rust `to_string()`
conversion yields (`none` = the conversion fails with an error). -/
structure PWSTR where
  ptr : Nat
  contents : Option String
deriving DecidableEq, Repr

/-- Ghost memory event: a buffer is obtained from the service, or
released with `CoTaskMemFree`. -/
inductive Event where
  | acquire : PWSTR → Event
  | free : PWSTR → Event
deriving DecidableEq, Repr

/-- One entry of the error enumerator (`ISpellingError`).  Each field is
the result of the corresponding fallible COM getter as called in
`check`: `none` means the call fails. -/
structure ISpellingError where
  StartIndex : Option Nat
  Length : Option Nat
  CorrectiveAction : Option Nat
  Replacement : Option PWSTR
deriving DecidableEq, Repr

/-- The checker handle (`ISpellChecker`): `ComprehensiveCheck` yields the
errors its enumerator will produce (list end = first non-success `Next`
status), `Suggest` yields the suggestion enumerator's slots (`none` = a
null entry, list end = non-success `Next`). -/
structure ISpellChecker where
  ComprehensiveCheck : String → Option (List ISpellingError)
  Suggest : String → Option (List (Option PWSTR))

/-- `pub struct Spellchecker(ISpellChecker)` — the wrapper newtype. -/
structure Spellchecker where
  inner : ISpellChecker

/-- `ISpellCheckerFactory`, obtained from `CoCreateInstance`. -/
structure ISpellCheckerFactory where
  IsSupported : String → Option Bool
  CreateSpellChecker : String → Option ISpellChecker

/-- The process environment for construction: whether the one-time
`CoInitializeEx` platform call succeeds, and what `CoCreateInstance`
returns (`none` = factory creation fails). -/
structure ComEnv where
  coInitOk : Bool
  coCreateInstance : Option ISpellCheckerFactory

/-- Observable outcome of one `try_init_com` invocation: the value of
the shared `COM_INIT` flag after the call, whether the underlying
platform initialization call (`CoInitializeEx`) was performed, and
whether the invocation panicked (`.expect` on a failed platform call). -/
structure InitStep where
  flag : Bool
  calledCoInit : Bool
  panicked : Bool
deriving DecidableEq, Repr

/-- `try_init_com` (src/lib.rs:13-24).  `com_init` is the value of the
shared `COM_INIT` flag on entry.  When the flag is unset the code sets
it (before dropping the lock) and then performs the platform call,
panicking if it fails; otherwise nothing happens. -/
def try_init_com (coInitOk : Bool) (com_init : Bool) : InitStep :=
  if !com_init then
    ⟨true, true, !coInitOk⟩
  else
    ⟨com_init, false, false⟩

/-- Run `n` sequential invocations of `try_init_com` from process start
(flag `false`); returns the flag value and the number of platform
initialization calls performed so far. -/
def run_inits (coInitOk : Bool) : Nat → Bool × Nat
  | 0 => (false, 0)
  | n + 1 =>
    let p := run_inits coInitOk n
    let s := try_init_com coInitOk p.1
    (s.flag, p.2 + if s.calledCoInit then 1 else 0)

/-- `Spellchecker::new` (src/lib.rs:45-56), with the `try_init_com` call
made explicit: `com_init` is the flag value on entry.  The outer
`Option` is panic propagation from `try_init_com` (`none` = the process
panicked before `new`'s own body ran to completion); on the non-panic
path the result carries the updated flag and the Rust return value
(`none` = Rust's `None`). -/
def new (env : ComEnv) (com_init : Bool) (locale : String) :
    Option (Bool × Option Spellchecker) :=
  let s := try_init_com env.coInitOk com_init
  if s.panicked then none
  else
    some (s.flag,
      match env.coCreateInstance with
      | none => none
      | some factory =>
        match factory.IsSupported locale with
        | none => none
        | some supported =>
          if !supported then none
          else
            match factory.CreateSpellChecker locale with
            | none => none
            | some checker => some ⟨checker⟩)

/-- `Spellchecker::new_en` (src/lib.rs:58-60). -/
def new_en (env : ComEnv) (com_init : Bool) : Option (Bool × Option Spellchecker) :=
  new env com_init "en-US"

/-- Number of bytes of the UTF-8 encoding of one character (Rust `&str`
is UTF-8). -/
def utf8Size (c : Char) : Nat :=
  if c.val < 128 then 1
  else if c.val < 2048 then 2
  else if c.val < 65536 then 3
  else 4

/-- Byte length of the UTF-8 encoding of a character list. -/
def utf8Len : List Char → Nat
  | [] => 0
  | c :: cs => utf8Size c + utf8Len cs

/-- Drop the first `n` bytes of the UTF-8 encoding; `none` when `n`
overruns the string or falls inside a character (not a char boundary). -/
def dropBytes : List Char → Nat → Option (List Char)
  | cs, 0 => some cs
  | [], _ + 1 => none
  | c :: cs, n + 1 =>
    if utf8Size c ≤ n + 1 then dropBytes cs (n + 1 - utf8Size c) else none

/-- Take the first `n` bytes of the UTF-8 encoding as characters; `none`
when `n` overruns the string or is not a char boundary. -/
def takeBytes : List Char → Nat → Option (List Char)
  | _, 0 => some []
  | [], _ + 1 => none
  | c :: cs, n + 1 =>
    if utf8Size c ≤ n + 1 then
      (takeBytes cs (n + 1 - utf8Size c)).map (fun l => c :: l)
    else none

/-- Rust string slicing `&text[a..b]`: the bytes `[a, b)` of the UTF-8
encoding, provided `a ≤ b`, both indices are in range and on character
boundaries; `none` models the Rust panic otherwise. -/
def sliceBytes (cs : List Char) (a b : Nat) : Option (List Char) :=
  if a ≤ b then (dropBytes cs a).bind (fun rest => takeBytes rest (b - a))
  else none

/-- `CORRECTIVE_ACTION_NONE` (Windows spellcheck API value). -/
def CORRECTIVE_ACTION_NONE : Nat := 0
/-- `CORRECTIVE_ACTION_GET_SUGGESTIONS` (Windows spellcheck API value). -/
def CORRECTIVE_ACTION_GET_SUGGESTIONS : Nat := 1
/-- `CORRECTIVE_ACTION_REPLACE` (Windows spellcheck API value). -/
def CORRECTIVE_ACTION_REPLACE : Nat := 2
/-- `CORRECTIVE_ACTION_DELETE` (Windows spellcheck API value). -/
def CORRECTIVE_ACTION_DELETE : Nat := 3

/-- `Correction` (src/lib.rs:28-35). -/
inductive Correction where
  | None : Correction
  | Delete : Correction
  | Suggestions : List String → Correction
  | Replacement : String → Correction
deriving DecidableEq, Repr

/-- `SpellingError` (src/lib.rs:37-42). -/
structure SpellingError where
  start : Nat
  length : Nat
  correction : Correction
deriving DecidableEq, Repr

/-- The suggestion-collection loop (src/lib.rs:77-83): advance the
suggestion enumerator while `Next` returns `S_OK` and the slot is
non-null; convert each buffer to an owned string (`?` on failure) and
then release it with `CoTaskMemFree`.  Returns the collected strings and
the ghost trace of buffer events. -/
def suggestLoop : List (Option PWSTR) → CallResult (List String) × List Event
  | [] => (.ok [], [])
  | none :: _ => (.ok [], [])
  | some p :: rest =>
    match p.contents with
    | none => (.fail, [.acquire p])
    | some s =>
      let r := suggestLoop rest
      (r.1.map (fun ss => s :: ss), .acquire p :: .free p :: r.2)

/-- The body of one iteration of `check`'s main loop
(src/lib.rs:67-99): read the error's start, length and corrective
action (each `?` on failure), dispatch on the action code, and build the
`SpellingError`.  Returns the resolved error and the ghost trace. -/
def resolveErrorTrace (c : ISpellChecker) (text : String) (err : ISpellingError) :
    CallResult SpellingError × List Event :=
  match err.StartIndex with
  | none => (.fail, [])
  | some start =>
    match err.Length with
    | none => (.fail, [])
    | some length =>
      match err.CorrectiveAction with
      | none => (.fail, [])
      | some action =>
        if action = CORRECTIVE_ACTION_DELETE then
          (.ok ⟨start, length, Correction.Delete⟩, [])
        else if action = CORRECTIVE_ACTION_GET_SUGGESTIONS then
          match sliceBytes text.data start (start + length) with
          | none => (.panic, [])
          | some substring =>
            match c.Suggest (String.mk substring) with
            | none => (.fail, [])
            | some entries =>
              let r := suggestLoop entries
              (r.1.map (fun ss => ⟨start, length, Correction.Suggestions ss⟩), r.2)
        else if action = CORRECTIVE_ACTION_REPLACE then
          match err.Replacement with
          | none => (.fail, [])
          | some replacement =>
            match replacement.contents with
            | none => (.fail, [.acquire replacement])
            | some s =>
              (.ok ⟨start, length, Correction.Replacement s⟩,
               [.acquire replacement, .free replacement])
        else
          (.ok ⟨start, length, Correction.None⟩, [])

/-- `check`'s main enumeration loop (src/lib.rs:66-100) over the errors
the enumerator yields: resolve each in turn, short-circuiting on
failure or panic, accumulating results in enumeration order and
concatenating the ghost traces. -/
def checkLoop (c : ISpellChecker) (text : String) :
    List ISpellingError → CallResult (List SpellingError) × List Event
  | [] => (.ok [], [])
  | err :: rest =>
    let r := resolveErrorTrace c text err
    match r.1 with
    | .panic => (.panic, r.2)
    | .fail => (.fail, r.2)
    | .ok se =>
      let rr := checkLoop c text rest
      (rr.1.map (fun ses => se :: ses), r.2 ++ rr.2)

/-- `Spellchecker::check` (src/lib.rs:62-102) with its ghost trace:
submit the text to `ComprehensiveCheck` (`?` on failure), then run the
enumeration loop. -/
def checkTrace (self : Spellchecker) (text : String) :
    CallResult (List SpellingError) × List Event :=
  match self.inner.ComprehensiveCheck text with
  | none => (.fail, [])
  | some errors => checkLoop self.inner text errors

/-- `Spellchecker::check`'s return value: `.ok v` = `Some(v)`,
`.fail` = `None`, `.panic` = the call panics. -/
def check (self : Spellchecker) (text : String) : CallResult (List SpellingError) :=
  (checkTrace self text).1

/-- Specification-side description of how one enumerated error
corresponds to one returned `SpellingError`: the start/length reads
succeeded and carried over, and the correction is determined by the
corrective-action code exactly as the dispatch prescribes. -/
def ErrMatches (c : ISpellChecker) (text : String) (e : ISpellingError)
    (r : SpellingError) : Prop :=
  ∃ s l a, e.StartIndex = some s ∧ e.Length = some l ∧
    e.CorrectiveAction = some a ∧ r.start = s ∧ r.length = l ∧
    ((a = CORRECTIVE_ACTION_DELETE ∧ r.correction = Correction.Delete) ∨
     (a = CORRECTIVE_ACTION_GET_SUGGESTIONS ∧
       ∃ sub entries ss,
         sliceBytes text.data s (s + l) = some sub ∧
         c.Suggest (String.mk sub) = some entries ∧
         (suggestLoop entries).1 = CallResult.ok ss ∧
         r.correction = Correction.Suggestions ss) ∨
     (a = CORRECTIVE_ACTION_REPLACE ∧
       ∃ p str, e.Replacement = some p ∧ p.contents = some str ∧
         r.correction = Correction.Replacement str) ∨
     (a ≠ CORRECTIVE_ACTION_DELETE ∧ a ≠ CORRECTIVE_ACTION_GET_SUGGESTIONS ∧
       a ≠ CORRECTIVE_ACTION_REPLACE ∧ r.correction = Correction.None))

/-- The service behaviour only ever hands out non-empty strings, both
as replacement buffers on enumerated errors and as suggestion buffers. -/
def serviceNonEmptyStrings (c : ISpellChecker) : Prop :=
  (∀ t errors, c.ComprehensiveCheck t = some errors →
    ∀ e ∈ errors, ∀ p, e.Replacement = some p →
      ∀ s, p.contents = some s → s ≠ "") ∧
  (∀ w entries, c.Suggest w = some entries →
    ∀ op ∈ entries, ∀ p, op = some p →
      ∀ s, p.contents = some s → s ≠ "")

/-- A ghost trace in which every obtained buffer is released exactly
once, immediately after it is obtained and converted. -/
inductive Paired : List Event → Prop
  | nil : Paired []
  | cons (p : PWSTR) {tr : List Event} : Paired tr →
      Paired (Event.acquire p :: Event.free p :: tr)

/-- A ghost trace of immediately-released acquire/free pairs, except
that the final event may be a lone acquisition that is never released
(the buffer whose conversion failed). -/
inductive AlmostPaired : List Event → Prop
  | done {tr : List Event} : Paired tr → AlmostPaired tr
  | leak (p : PWSTR) : AlmostPaired [Event.acquire p]
  | cons (p : PWSTR) {tr : List Event} : AlmostPaired tr →
      AlmostPaired (Event.acquire p :: Event.free p :: tr)

/-- Concrete service behaviour exercising all four dispatch branches:
a delete error, a get-suggestions error over `"b"`, a replace error
carrying buffer `"z"`, and an unknown-code error. -/
def svcW : ISpellChecker :=
  ⟨fun _ => some
      [⟨some 0, some 1, some 3, none⟩,
       ⟨some 1, some 1, some 1, none⟩,
       ⟨some 2, some 1, some 2, some ⟨1, some "z"⟩⟩,
       ⟨some 3, some 1, some 0, none⟩],
   fun _ => some [some ⟨2, some "x"⟩, some ⟨3, some "y"⟩]⟩

/-- The result `check ⟨svcW⟩ "abcd"` resolves to. -/
def rsW : List SpellingError :=
  [⟨0, 1, Correction.Delete⟩,
   ⟨1, 1, Correction.Suggestions ["x", "y"]⟩,
   ⟨2, 1, Correction.Replacement "z"⟩,
   ⟨3, 1, Correction.None⟩]

/-- Concrete factory handing out `svcW` for every locale. -/
def factW : ISpellCheckerFactory :=
  ⟨fun _ => some true, fun _ => some svcW⟩

/-- Concrete environment: platform initialization succeeds and the
factory is `factW`. -/
def envW : ComEnv := ⟨true, some factW⟩

/-- Service behaviour whose only error is a get-suggestions error with
`start = 0`, `length = 1`; on the one-character text `"é"` (two UTF-8
bytes) the byte slice `[0, 1)` splits the character. -/
def svcE : ISpellChecker :=
  ⟨fun _ => some [⟨some 0, some 1, some 1, none⟩], fun _ => some []⟩

/-- Service behaviour delivering one suggestion buffer whose
`to_string()` conversion fails. -/
def svcL : ISpellChecker :=
  ⟨fun _ => some [⟨some 0, some 1, some 1, none⟩],
   fun _ => some [some ⟨5, none⟩]⟩

/-- Service behaviour delivering one empty suggestion string. -/
def svcEm : ISpellChecker :=
  ⟨fun _ => some [⟨some 0, some 1, some 1, none⟩],
   fun _ => some [some ⟨0, some ""⟩]⟩

/-- Service behaviour whose error enumeration fails outright. -/
def svcNone : ISpellChecker :=
  ⟨fun _ => none, fun _ => some []⟩

/-- Service behaviour with a delete error followed by an error whose
`StartIndex` read fails. -/
def svcMid : ISpellChecker :=
  ⟨fun _ => some
      [⟨some 0, some 1, some 3, none⟩,
       ⟨none, some 1, some 3, none⟩],
   fun _ => some []⟩

/-- Concrete environment whose platform initialization call fails. -/
def envBad : ComEnv := ⟨false, none⟩

theorem suggestLoop_ne_panic (bl : List (Option PWSTR)) :
    (suggestLoop bl).1 ≠ CallResult.panic := by
  induction bl with
  | nil => simp [suggestLoop]
  | cons hd tl ih =>
    cases hd with
    | none => simp [suggestLoop]
    | some p =>
      cases hp : p.contents with
      | none => simp [suggestLoop, hp]
      | some s =>
        have heq : (suggestLoop (some p :: tl)).1
            = (suggestLoop tl).1.map (fun ss => s :: ss) := by
          simp [suggestLoop, hp]
        rw [heq]
        cases hq : (suggestLoop tl).1 with
        | panic => exact absurd hq ih
        | fail => simp [CallResult.map]
        | ok v => simp [CallResult.map]

theorem suggestLoop_ok_mem (bl : List (Option PWSTR)) (ss : List String)
    (h : (suggestLoop bl).1 = CallResult.ok ss) :
    ∀ s ∈ ss, ∃ p, some p ∈ bl ∧ p.contents = some s := by
  induction bl generalizing ss with
  | nil =>
    simp [suggestLoop] at h
    subst h; simp
  | cons hd tl ih =>
    cases hd with
    | none =>
      simp [suggestLoop] at h
      subst h; simp
    | some p =>
      cases hp : p.contents with
      | none => simp [suggestLoop, hp] at h
      | some s0 =>
        have heq : (suggestLoop (some p :: tl)).1
            = (suggestLoop tl).1.map (fun ss => s0 :: ss) := by
          simp [suggestLoop, hp]
        rw [heq] at h
        cases hq : (suggestLoop tl).1 with
        | panic => rw [hq] at h; simp [CallResult.map] at h
        | fail => rw [hq] at h; simp [CallResult.map] at h
        | ok v =>
          rw [hq] at h
          simp only [CallResult.map] at h
          cases h
          intro s hs
          rcases List.mem_cons.mp hs with hs | hs
          · exact ⟨p, by simp, by rw [hp, hs]⟩
          · rcases ih v hq s hs with ⟨q, hq1, hq2⟩
            exact ⟨q, List.mem_cons_of_mem _ hq1, hq2⟩

theorem suggestLoop_almostPaired (bl : List (Option PWSTR)) :
    AlmostPaired (suggestLoop bl).2 := by
  induction bl with
  | nil => exact AlmostPaired.done Paired.nil
  | cons hd tl ih =>
    cases hd with
    | none =>
      have : (suggestLoop (none :: tl)).2 = [] := by simp [suggestLoop]
      rw [this]; exact AlmostPaired.done Paired.nil
    | some p =>
      cases hp : p.contents with
      | none =>
        have : (suggestLoop (some p :: tl)).2 = [Event.acquire p] := by
          simp [suggestLoop, hp]
        rw [this]; exact AlmostPaired.leak p
      | some s =>
        have : (suggestLoop (some p :: tl)).2
            = Event.acquire p :: Event.free p :: (suggestLoop tl).2 := by
          simp [suggestLoop, hp]
        rw [this]; exact AlmostPaired.cons p ih

theorem suggestLoop_ok_paired (bl : List (Option PWSTR)) (ss : List String)
    (h : (suggestLoop bl).1 = CallResult.ok ss) :
    Paired (suggestLoop bl).2 := by
  induction bl generalizing ss with
  | nil => exact Paired.nil
  | cons hd tl ih =>
    cases hd with
    | none =>
      have : (suggestLoop (none :: tl)).2 = [] := by simp [suggestLoop]
      rw [this]; exact Paired.nil
    | some p =>
      cases hp : p.contents with
      | none => simp [suggestLoop, hp] at h
      | some s =>
        have h2 : (suggestLoop (some p :: tl)).2
            = Event.acquire p :: Event.free p :: (suggestLoop tl).2 := by
          simp [suggestLoop, hp]
        have h1 : (suggestLoop (some p :: tl)).1
            = (suggestLoop tl).1.map (fun ss => s :: ss) := by
          simp [suggestLoop, hp]
        rw [h1] at h
        rw [h2]
        cases hq : (suggestLoop tl).1 with
        | panic => rw [hq] at h; simp [CallResult.map] at h
        | fail => rw [hq] at h; simp [CallResult.map] at h
        | ok v => exact Paired.cons p (ih v hq)

theorem paired_append {t1 t2 : List Event} (h1 : Paired t1) (h2 : Paired t2) :
    Paired (t1 ++ t2) := by
  induction h1 with
  | nil => exact h2
  | cons p _ ih => exact Paired.cons p ih

theorem paired_append_almost {t1 t2 : List Event}
    (h1 : Paired t1) (h2 : AlmostPaired t2) : AlmostPaired (t1 ++ t2) := by
  induction h1 with
  | nil => exact h2
  | cons p _ ih => exact AlmostPaired.cons p ih

theorem dropBytes_spec (cs : List Char) :
    ∀ n rest, dropBytes cs n = some rest →
      ∃ pre, cs = pre ++ rest ∧ utf8Len pre = n := by
  induction cs with
  | nil =>
    intro n rest h
    cases n with
    | zero =>
      simp [dropBytes] at h
      exact ⟨[], by simp [h], by simp [utf8Len]⟩
    | succ m => simp [dropBytes] at h
  | cons c cs ih =>
    intro n rest h
    cases n with
    | zero =>
      simp [dropBytes] at h
      exact ⟨[], by simp [h], by simp [utf8Len]⟩
    | succ m =>
      simp only [dropBytes] at h
      by_cases hc : utf8Size c ≤ m + 1
      · rw [if_pos hc] at h
        rcases ih _ _ h with ⟨pre, hpre, hlen⟩
        refine ⟨c :: pre, by simp [hpre], ?_⟩
        simp [utf8Len, hlen]
        omega
      · rw [if_neg hc] at h
        exact absurd h (by simp)

theorem takeBytes_spec (cs : List Char) :
    ∀ n sub, takeBytes cs n = some sub →
      ∃ post, cs = sub ++ post ∧ utf8Len sub = n := by
  induction cs with
  | nil =>
    intro n sub h
    cases n with
    | zero =>
      simp only [takeBytes] at h
      obtain rfl := Option.some.inj h
      exact ⟨[], by simp, by simp [utf8Len]⟩
    | succ m => simp [takeBytes] at h
  | cons c cs ih =>
    intro n sub h
    cases n with
    | zero =>
      simp only [takeBytes] at h
      obtain rfl := Option.some.inj h
      exact ⟨c :: cs, by simp, by simp [utf8Len]⟩
    | succ m =>
      simp only [takeBytes] at h
      by_cases hc : utf8Size c ≤ m + 1
      · rw [if_pos hc] at h
        cases ht : takeBytes cs (m + 1 - utf8Size c) with
        | none => rw [ht] at h; simp at h
        | some l =>
          rw [ht] at h
          have h' : some (c :: l) = some sub := h
          obtain rfl := Option.some.inj h'
          rcases ih _ _ ht with ⟨post, hpost, hlen⟩
          refine ⟨post, by simp [hpost], ?_⟩
          simp [utf8Len, hlen]
          omega
      · rw [if_neg hc] at h
        exact absurd h (by simp)

theorem resolve_ok_matches (c : ISpellChecker) (text : String) (e : ISpellingError)
    (r : SpellingError) (h : (resolveErrorTrace c text e).1 = CallResult.ok r) :
    ErrMatches c text e r := by
  obtain ⟨os, ol, oa, orep⟩ := e
  cases os with
  | none => simp [resolveErrorTrace] at h
  | some s =>
  cases ol with
  | none => simp [resolveErrorTrace] at h
  | some l =>
  cases oa with
  | none => simp [resolveErrorTrace] at h
  | some a =>
  refine ⟨s, l, a, rfl, rfl, rfl, ?_⟩
  simp only [resolveErrorTrace] at h
  by_cases hd : a = CORRECTIVE_ACTION_DELETE
  · rw [if_pos hd] at h
    have h' : CallResult.ok (⟨s, l, Correction.Delete⟩ : SpellingError)
        = CallResult.ok r := h
    injection h' with h'
    subst h'
    exact ⟨rfl, rfl, Or.inl ⟨hd, rfl⟩⟩
  · rw [if_neg hd] at h
    by_cases hg : a = CORRECTIVE_ACTION_GET_SUGGESTIONS
    · rw [if_pos hg] at h
      cases hsub : sliceBytes text.data s (s + l) with
      | none =>
        simp only [hsub] at h
        exact absurd (show (CallResult.panic : CallResult SpellingError)
          = CallResult.ok r from h) (by simp)
      | some sub =>
        simp only [hsub] at h
        cases hsugg : c.Suggest (String.mk sub) with
        | none =>
          simp only [hsugg] at h
          exact absurd (show (CallResult.fail : CallResult SpellingError)
            = CallResult.ok r from h) (by simp)
        | some entries =>
          simp only [hsugg] at h
          cases hq : (suggestLoop entries).1 with
          | panic =>
            simp only [hq] at h
            exact absurd (show (CallResult.panic : CallResult SpellingError)
              = CallResult.ok r from h) (by simp)
          | fail =>
            simp only [hq] at h
            exact absurd (show (CallResult.fail : CallResult SpellingError)
              = CallResult.ok r from h) (by simp)
          | ok ss =>
            simp only [hq] at h
            have h' : CallResult.ok (⟨s, l, Correction.Suggestions ss⟩ : SpellingError)
                = CallResult.ok r := h
            injection h' with h'
            subst h'
            exact ⟨rfl, rfl,
              Or.inr (Or.inl ⟨hg, sub, entries, ss, rfl, hsugg, hq, rfl⟩)⟩
    · rw [if_neg hg] at h
      by_cases hrp : a = CORRECTIVE_ACTION_REPLACE
      · rw [if_pos hrp] at h
        cases orep with
        | none =>
          exact absurd (show (CallResult.fail : CallResult SpellingError)
            = CallResult.ok r from h) (by simp)
        | some p =>
          cases hc : p.contents with
          | none =>
            simp only [hc] at h
            exact absurd (show (CallResult.fail : CallResult SpellingError)
              = CallResult.ok r from h) (by simp)
          | some str =>
            simp only [hc] at h
            have h' : CallResult.ok (⟨s, l, Correction.Replacement str⟩ : SpellingError)
                = CallResult.ok r := h
            injection h' with h'
            subst h'
            exact ⟨rfl, rfl, Or.inr (Or.inr (Or.inl ⟨hrp, p, str, rfl, hc, rfl⟩))⟩
      · rw [if_neg hrp] at h
        have h' : CallResult.ok (⟨s, l, Correction.None⟩ : SpellingError)
            = CallResult.ok r := h
        injection h' with h'
        subst h'
        exact ⟨rfl, rfl, Or.inr (Or.inr (Or.inr ⟨hd, hg, hrp, rfl⟩))⟩

theorem resolve_almostPaired (c : ISpellChecker) (text : String) (e : ISpellingError) :
    AlmostPaired (resolveErrorTrace c text e).2 := by
  obtain ⟨os, ol, oa, orep⟩ := e
  cases os with
  | none => exact AlmostPaired.done Paired.nil
  | some s =>
  cases ol with
  | none => exact AlmostPaired.done Paired.nil
  | some l =>
  cases oa with
  | none => exact AlmostPaired.done Paired.nil
  | some a =>
  by_cases hd : a = CORRECTIVE_ACTION_DELETE
  · have htr : (resolveErrorTrace c text ⟨some s, some l, some a, orep⟩).2 = [] := by
      simp only [resolveErrorTrace]
      rw [if_pos hd]
    rw [htr]
    exact AlmostPaired.done Paired.nil
  · by_cases hg : a = CORRECTIVE_ACTION_GET_SUGGESTIONS
    · cases hsub : sliceBytes text.data s (s + l) with
      | none =>
        have htr : (resolveErrorTrace c text ⟨some s, some l, some a, orep⟩).2 = [] := by
          simp only [resolveErrorTrace]
          rw [if_neg hd, if_pos hg]
          simp only [hsub]
        rw [htr]
        exact AlmostPaired.done Paired.nil
      | some sub =>
        cases hsugg : c.Suggest (String.mk sub) with
        | none =>
          have htr : (resolveErrorTrace c text ⟨some s, some l, some a, orep⟩).2 = [] := by
            simp only [resolveErrorTrace]
            rw [if_neg hd, if_pos hg]
            simp only [hsub, hsugg]
          rw [htr]
          exact AlmostPaired.done Paired.nil
        | some entries =>
          have htr : (resolveErrorTrace c text ⟨some s, some l, some a, orep⟩).2
              = (suggestLoop entries).2 := by
            simp only [resolveErrorTrace]
            rw [if_neg hd, if_pos hg]
            simp only [hsub, hsugg]
          rw [htr]
          exact suggestLoop_almostPaired entries
    · by_cases hrp : a = CORRECTIVE_ACTION_REPLACE
      · cases orep with
        | none =>
          have htr : (resolveErrorTrace c text ⟨some s, some l, some a, none⟩).2 = [] := by
            simp only [resolveErrorTrace]
            rw [if_neg hd, if_neg hg, if_pos hrp]
          rw [htr]
          exact AlmostPaired.done Paired.nil
        | some p =>
          cases hc : p.contents with
          | none =>
            have htr : (resolveErrorTrace c text ⟨some s, some l, some a, some p⟩).2
                = [Event.acquire p] := by
              simp only [resolveErrorTrace]
              rw [if_neg hd, if_neg hg, if_pos hrp]
              simp only [hc]
            rw [htr]
            exact AlmostPaired.leak p
          | some str =>
            have htr : (resolveErrorTrace c text ⟨some s, some l, some a, some p⟩).2
                = [Event.acquire p, Event.free p] := by
              simp only [resolveErrorTrace]
              rw [if_neg hd, if_neg hg, if_pos hrp]
              simp only [hc]
            rw [htr]
            exact AlmostPaired.cons p (AlmostPaired.done Paired.nil)
      · have htr : (resolveErrorTrace c text ⟨some s, some l, some a, orep⟩).2 = [] := by
          simp only [resolveErrorTrace]
          rw [if_neg hd, if_neg hg, if_neg hrp]
        rw [htr]
        exact AlmostPaired.done Paired.nil

theorem resolve_ok_paired (c : ISpellChecker) (text : String) (e : ISpellingError)
    (r : SpellingError) (h : (resolveErrorTrace c text e).1 = CallResult.ok r) :
    Paired (resolveErrorTrace c text e).2 := by
  obtain ⟨os, ol, oa, orep⟩ := e
  cases os with
  | none => simp [resolveErrorTrace] at h
  | some s =>
  cases ol with
  | none => simp [resolveErrorTrace] at h
  | some l =>
  cases oa with
  | none => simp [resolveErrorTrace] at h
  | some a =>
  simp only [resolveErrorTrace] at h
  by_cases hd : a = CORRECTIVE_ACTION_DELETE
  · have htr : (resolveErrorTrace c text ⟨some s, some l, some a, orep⟩).2 = [] := by
      simp only [resolveErrorTrace]
      rw [if_pos hd]
    rw [htr]
    exact Paired.nil
  · rw [if_neg hd] at h
    by_cases hg : a = CORRECTIVE_ACTION_GET_SUGGESTIONS
    · rw [if_pos hg] at h
      cases hsub : sliceBytes text.data s (s + l) with
      | none =>
        simp only [hsub] at h
        exact absurd (show (CallResult.panic : CallResult SpellingError)
          = CallResult.ok r from h) (by simp)
      | some sub =>
        simp only [hsub] at h
        cases hsugg : c.Suggest (String.mk sub) with
        | none =>
          simp only [hsugg] at h
          exact absurd (show (CallResult.fail : CallResult SpellingError)
            = CallResult.ok r from h) (by simp)
        | some entries =>
          simp only [hsugg] at h
          cases hq : (suggestLoop entries).1 with
          | panic =>
            simp only [hq] at h
            exact absurd (show (CallResult.panic : CallResult SpellingError)
              = CallResult.ok r from h) (by simp)
          | fail =>
            simp only [hq] at h
            exact absurd (show (CallResult.fail : CallResult SpellingError)
              = CallResult.ok r from h) (by simp)
          | ok ss =>
            have htr : (resolveErrorTrace c text ⟨some s, some l, some a, orep⟩).2
                = (suggestLoop entries).2 := by
              simp only [resolveErrorTrace]
              rw [if_neg hd, if_pos hg]
              simp only [hsub, hsugg]
            rw [htr]
            exact suggestLoop_ok_paired entries ss hq
    · rw [if_neg hg] at h
      by_cases hrp : a = CORRECTIVE_ACTION_REPLACE
      · rw [if_pos hrp] at h
        cases orep with
        | none =>
          exact absurd (show (CallResult.fail : CallResult SpellingError)
            = CallResult.ok r from h) (by simp)
        | some p =>
          cases hc : p.contents with
          | none =>
            simp only [hc] at h
            exact absurd (show (CallResult.fail : CallResult SpellingError)
              = CallResult.ok r from h) (by simp)
          | some str =>
            have htr : (resolveErrorTrace c text ⟨some s, some l, some a, some p⟩).2
                = [Event.acquire p, Event.free p] := by
              simp only [resolveErrorTrace]
              rw [if_neg hd, if_neg hg, if_pos hrp]
              simp only [hc]
            rw [htr]
            exact Paired.cons p Paired.nil
      · have htr : (resolveErrorTrace c text ⟨some s, some l, some a, orep⟩).2 = [] := by
          simp only [resolveErrorTrace]
          rw [if_neg hd, if_neg hg, if_neg hrp]
        rw [htr]
        exact Paired.nil

theorem checkLoop_ok_forall2 (c : ISpellChecker) (text : String) :
    ∀ (es : List ISpellingError) (rs : List SpellingError),
      (checkLoop c text es).1 = CallResult.ok rs →
      List.Forall₂ (fun e r => (resolveErrorTrace c text e).1 = CallResult.ok r) es rs := by
  intro es
  induction es with
  | nil =>
    intro rs h
    have h' : CallResult.ok ([] : List SpellingError) = CallResult.ok rs := h
    injection h' with h'
    subst h'
    exact List.Forall₂.nil
  | cons e es ih =>
    intro rs h
    simp only [checkLoop] at h
    cases hr : (resolveErrorTrace c text e).1 with
    | panic =>
      simp only [hr] at h
      exact absurd (show (CallResult.panic : CallResult (List SpellingError))
        = CallResult.ok rs from h) (by simp)
    | fail =>
      simp only [hr] at h
      exact absurd (show (CallResult.fail : CallResult (List SpellingError))
        = CallResult.ok rs from h) (by simp)
    | ok se =>
      simp only [hr] at h
      cases hq : (checkLoop c text es).1 with
      | panic =>
        simp only [hq] at h
        exact absurd (show (CallResult.panic : CallResult (List SpellingError))
          = CallResult.ok rs from h) (by simp)
      | fail =>
        simp only [hq] at h
        exact absurd (show (CallResult.fail : CallResult (List SpellingError))
          = CallResult.ok rs from h) (by simp)
      | ok v =>
        simp only [hq] at h
        have h' : CallResult.ok (se :: v) = CallResult.ok rs := h
        injection h' with h'
        subst h'
        exact List.Forall₂.cons hr (ih v hq)

theorem checkLoop_fail_at (c : ISpellChecker) (text : String) :
    ∀ (es : List ISpellingError) (i : Nat) (hi : i < es.length),
      (resolveErrorTrace c text (es.get ⟨i, hi⟩)).1 = CallResult.fail →
      (∀ (j : Nat) (hj : j < es.length), j < i →
        ∃ r, (resolveErrorTrace c text (es.get ⟨j, hj⟩)).1 = CallResult.ok r) →
      (checkLoop c text es).1 = CallResult.fail := by
  intro es
  induction es with
  | nil =>
    intro i hi
    exact absurd hi (by simp)
  | cons e es ih =>
    intro i hi hfail hpre
    cases i with
    | zero =>
      have hf : (resolveErrorTrace c text e).1 = CallResult.fail := hfail
      simp only [checkLoop, hf]
    | succ i' =>
      rcases hpre 0 (Nat.succ_pos es.length) (Nat.succ_pos i') with ⟨r0, hr0⟩
      have hr0' : (resolveErrorTrace c text e).1 = CallResult.ok r0 := hr0
      have hi' : i' < es.length := Nat.lt_of_succ_lt_succ hi
      have hrec : (checkLoop c text es).1 = CallResult.fail := by
        apply ih i' hi'
        · exact hfail
        · intro j hj hji
          exact hpre (j + 1) (Nat.succ_lt_succ hj) (Nat.succ_lt_succ hji)
      simp only [checkLoop, hr0']
      show CallResult.map (fun ses => r0 :: ses) (checkLoop c text es).1 = CallResult.fail
      rw [hrec]
      rfl

theorem checkLoop_almostPaired (c : ISpellChecker) (text : String) :
    ∀ es : List ISpellingError, AlmostPaired (checkLoop c text es).2 := by
  intro es
  induction es with
  | nil => exact AlmostPaired.done Paired.nil
  | cons e es ih =>
    cases hr : (resolveErrorTrace c text e).1 with
    | panic =>
      have htr : (checkLoop c text (e :: es)).2 = (resolveErrorTrace c text e).2 := by
        simp only [checkLoop, hr]
      rw [htr]
      exact resolve_almostPaired c text e
    | fail =>
      have htr : (checkLoop c text (e :: es)).2 = (resolveErrorTrace c text e).2 := by
        simp only [checkLoop, hr]
      rw [htr]
      exact resolve_almostPaired c text e
    | ok se =>
      have htr : (checkLoop c text (e :: es)).2
          = (resolveErrorTrace c text e).2 ++ (checkLoop c text es).2 := by
        simp only [checkLoop, hr]
      rw [htr]
      exact paired_append_almost (resolve_ok_paired c text e se hr) ih

theorem checkLoop_ok_paired (c : ISpellChecker) (text : String) :
    ∀ (es : List ISpellingError) (rs : List SpellingError),
      (checkLoop c text es).1 = CallResult.ok rs → Paired (checkLoop c text es).2 := by
  intro es
  induction es with
  | nil =>
    intro rs h
    exact Paired.nil
  | cons e es ih =>
    intro rs h
    simp only [checkLoop] at h
    cases hr : (resolveErrorTrace c text e).1 with
    | panic =>
      simp only [hr] at h
      exact absurd (show (CallResult.panic : CallResult (List SpellingError))
        = CallResult.ok rs from h) (by simp)
    | fail =>
      simp only [hr] at h
      exact absurd (show (CallResult.fail : CallResult (List SpellingError))
        = CallResult.ok rs from h) (by simp)
    | ok se =>
      simp only [hr] at h
      cases hq : (checkLoop c text es).1 with
      | panic =>
        simp only [hq] at h
        exact absurd (show (CallResult.panic : CallResult (List SpellingError))
          = CallResult.ok rs from h) (by simp)
      | fail =>
        simp only [hq] at h
        exact absurd (show (CallResult.fail : CallResult (List SpellingError))
          = CallResult.ok rs from h) (by simp)
      | ok v =>
        have htr : (checkLoop c text (e :: es)).2
            = (resolveErrorTrace c text e).2 ++ (checkLoop c text es).2 := by
          simp only [checkLoop, hr]
        rw [htr]
        exact paired_append (resolve_ok_paired c text e se hr) (ih v hq)

theorem forall2_mem_rel {α β : Type} {R : α → β → Prop} :
    ∀ {l1 : List α} {l2 : List β}, List.Forall₂ R l1 l2 →
      ∀ b ∈ l2, ∃ a ∈ l1, R a b := by
  intro l1 l2 h
  induction h with
  | nil =>
    intro b hb
    exact absurd hb (by simp)
  | @cons a b l1' l2' hab htl ih =>
    intro x hx
    rcases List.mem_cons.mp hx with rfl | hx
    · exact ⟨a, by simp, hab⟩
    · rcases ih x hx with ⟨a', ha', hr'⟩
      exact ⟨a', by simp [ha'], hr'⟩

theorem new_some_inner (env : ComEnv) (com_init : Bool) (locale : String)
    (fl : Bool) (c : Spellchecker)
    (h : new env com_init locale = some (fl, some c)) :
    ∃ f, env.coCreateInstance = some f ∧ f.IsSupported locale = some true ∧
      f.CreateSpellChecker locale = some c.inner := by
  simp only [new] at h
  by_cases hp : (try_init_com env.coInitOk com_init).panicked
  · rw [if_pos hp] at h
    exact absurd h (by simp)
  · rw [if_neg hp] at h
    injection h with h
    have h2 := congrArg Prod.snd h
    simp only [] at h2
    cases hf : env.coCreateInstance with
    | none =>
      simp only [hf] at h2
      exact absurd h2 (by simp)
    | some f =>
      simp only [hf] at h2
      cases hsupp : f.IsSupported locale with
      | none =>
        simp only [hsupp] at h2
        exact absurd h2 (by simp)
      | some supported =>
        simp only [hsupp] at h2
        cases supported with
        | false =>
          exact absurd (show (none : Option Spellchecker) = some c from h2) (by simp)
        | true =>
          cases hcr : f.CreateSpellChecker locale with
          | none =>
            simp only [hcr] at h2
            exact absurd (show (none : Option Spellchecker) = some c from h2) (by simp)
          | some checker =>
            simp only [hcr] at h2
            have h3 : some (Spellchecker.mk checker) = some c := h2
            injection h3 with h3
            subst h3
            exact ⟨f, rfl, hsupp, hcr⟩

theorem sliceBytes_spec (cs : List Char) (a b : Nat) (sub : List Char)
    (h : sliceBytes cs a b = some sub) :
    ∃ pre post, cs = pre ++ sub ++ post ∧ utf8Len pre = a ∧ utf8Len sub = b - a := by
  simp only [sliceBytes] at h
  by_cases hab : a ≤ b
  · rw [if_pos hab] at h
    cases hd : dropBytes cs a with
    | none => rw [hd] at h; simp at h
    | some rest =>
      rw [hd] at h
      have h' : takeBytes rest (b - a) = some sub := h
      rcases dropBytes_spec cs a rest hd with ⟨pre, hpre, hlenp⟩
      rcases takeBytes_spec rest (b - a) sub h' with ⟨post, hpost, hlens⟩
      exact ⟨pre, post, by rw [hpre, hpost, List.append_assoc], hlenp, hlens⟩
  · rw [if_neg hab] at h
    exact absurd h (by simp)

/-- C1: for every successful `check`, the result has exactly one
`SpellingError` per enumerated error, in enumeration order, with the
correction determined by the corrective-action code: the delete code
yields `Correction.Delete`, the get-suggestions code yields
`Correction.Suggestions` of the collected list, the replace code yields
`Correction.Replacement` of the entry's replacement string, and any
other code yields `Correction.None`.  (The enumerator model already
ends the primary loop at its first non-success status: the enumerated
errors are exactly the list `ComprehensiveCheck` yields.) -/
theorem check_enumeration_dispatch (self : Spellchecker) (text : String)
    (rs : List SpellingError) (h : check self text = CallResult.ok rs) :
    ∃ errors, self.inner.ComprehensiveCheck text = some errors ∧
      errors.length = rs.length ∧
      List.Forall₂ (ErrMatches self.inner text) errors rs := by
  simp only [check, checkTrace] at h
  cases hcc : self.inner.ComprehensiveCheck text with
  | none =>
    simp only [hcc] at h
    exact absurd (show (CallResult.fail : CallResult (List SpellingError))
      = CallResult.ok rs from h) (by simp)
  | some errors =>
    simp only [hcc] at h
    have hf2 := checkLoop_ok_forall2 self.inner text errors rs h
    exact ⟨errors, rfl, List.Forall₂.length_eq hf2,
      List.Forall₂.imp (fun e r hr => resolve_ok_matches self.inner text e r hr) hf2⟩

/-- C1 witness: the dispatch theorem applied to a concrete service with
one error of each corrective-action kind. -/
theorem check_enumeration_dispatch_witness :
    ∃ errors, (Spellchecker.mk svcW).inner.ComprehensiveCheck "abcd" = some errors ∧
      errors.length = rsW.length ∧
      List.Forall₂ (ErrMatches (Spellchecker.mk svcW).inner "abcd") errors rsW :=
  check_enumeration_dispatch ⟨svcW⟩ "abcd" rsW (by decide)

/-- C3: any native-call failure during the check — a failed
comprehensive-check submission, or a failed resolution of any
enumerated error (start/length/action read, suggestion or replacement
query, string conversion) even when all earlier errors resolved
successfully — makes `check` return `None`; no prefix of resolved
errors is returned. -/
theorem check_no_partial_results (self : Spellchecker) (text : String) :
    (self.inner.ComprehensiveCheck text = none → check self text = CallResult.fail) ∧
    (∀ errors, self.inner.ComprehensiveCheck text = some errors →
      ∀ (i : Nat) (hi : i < errors.length),
        (resolveErrorTrace self.inner text (errors.get ⟨i, hi⟩)).1 = CallResult.fail →
        (∀ (j : Nat) (hj : j < errors.length), j < i →
          ∃ r, (resolveErrorTrace self.inner text (errors.get ⟨j, hj⟩)).1
            = CallResult.ok r) →
        check self text = CallResult.fail) := by
  constructor
  · intro hcc
    simp [check, checkTrace, hcc]
  · intro errors hcc i hi hfail hpre
    have hl := checkLoop_fail_at self.inner text errors i hi hfail hpre
    simp [check, checkTrace, hcc, hl]

/-- C3 witness: a service whose second error fails its start-offset
read while its first error resolves; the whole check collapses to
`None` with no partial result. -/
theorem check_no_partial_results_witness : check ⟨svcMid⟩ "ab" = CallResult.fail :=
  (check_no_partial_results ⟨svcMid⟩ "ab").2
    [⟨some 0, some 1, some 3, none⟩, ⟨none, some 1, some 3, none⟩] rfl
    1 (by decide) (by decide)
    (by
      intro j hj hji
      have hj0 : j = 0 := by omega
      subst hj0
      exact ⟨⟨0, 1, Correction.Delete⟩, rfl⟩)

/-- C2: provided the initialization guard did not panic, `new` always
returns a value (never panics in its own body): the wrapped result is
`none` when factory creation fails, when the locale-support query
fails, and when the service reports the locale unsupported; when the
locale is supported the result is exactly the (possibly failed) checker
creation; and a `Some` result only arises when the locale was reported
supported and checker creation succeeded. -/
theorem new_failure_collapses (env : ComEnv) (com_init : Bool) (locale : String)
    (h : (try_init_com env.coInitOk com_init).panicked = false) :
    ∃ r, new env com_init locale
        = some ((try_init_com env.coInitOk com_init).flag, r) ∧
      (env.coCreateInstance = none → r = none) ∧
      (∀ f, env.coCreateInstance = some f →
        (f.IsSupported locale = none → r = none) ∧
        (f.IsSupported locale = some false → r = none) ∧
        (f.IsSupported locale = some true →
          r = (f.CreateSpellChecker locale).map Spellchecker.mk)) ∧
      (∀ c, r = some c → ∃ f, env.coCreateInstance = some f ∧
        f.IsSupported locale = some true ∧
        f.CreateSpellChecker locale = some c.inner) := by
  cases hf : env.coCreateInstance with
  | none =>
    refine ⟨none, by simp [new, h, hf], fun _ => rfl, ?_, ?_⟩
    · intro f hf'
      exact absurd hf' (by simp)
    · intro c hc
      exact absurd hc (by simp)
  | some f =>
    cases hsupp : f.IsSupported locale with
    | none =>
      refine ⟨none, by simp [new, h, hf, hsupp], ?_, ?_, ?_⟩
      · intro h'
        exact absurd h' (by simp)
      · intro f' hf'
        obtain rfl := Option.some.inj hf'
        exact ⟨fun _ => rfl, fun _ => rfl, fun h'' => absurd (hsupp ▸ h'') (by simp)⟩
      · intro c hc
        exact absurd hc (by simp)
    | some supported =>
      cases supported with
      | false =>
        refine ⟨none, by simp [new, h, hf, hsupp], ?_, ?_, ?_⟩
        · intro h'
          exact absurd h' (by simp)
        · intro f' hf'
          obtain rfl := Option.some.inj hf'
          refine ⟨fun h'' => absurd (hsupp ▸ h'') ?_, fun _ => rfl,
            fun h'' => absurd (hsupp ▸ h'') ?_⟩
          · simp
          · simp
        · intro c hc
          exact absurd hc (by simp)
      | true =>
        refine ⟨(f.CreateSpellChecker locale).map Spellchecker.mk, ?_, ?_, ?_, ?_⟩
        · have hb : (new env com_init locale)
              = some ((try_init_com env.coInitOk com_init).flag,
                  match f.CreateSpellChecker locale with
                  | none => none
                  | some checker => some ⟨checker⟩) := by
            simp [new, h, hf, hsupp]
          rw [hb]
          cases f.CreateSpellChecker locale <;> rfl
        · intro h'
          exact absurd h' (by simp)
        · intro f' hf'
          obtain rfl := Option.some.inj hf'
          refine ⟨fun h'' => absurd (hsupp ▸ h'') ?_,
            fun h'' => absurd (hsupp ▸ h'') ?_, fun _ => rfl⟩
          · simp
          · simp
        · intro c hc
          cases hcr : f.CreateSpellChecker locale with
          | none =>
            rw [hcr] at hc
            exact absurd hc (by simp)
          | some checker =>
            rw [hcr] at hc
            have hc' : some (Spellchecker.mk checker) = some c := hc
            obtain rfl := Option.some.inj hc'
            exact ⟨f, rfl, hsupp, hcr⟩

/-- C2 witness: the collapse theorem applied to a concrete environment
with a working factory. -/
theorem new_failure_collapses_witness :
    ∃ r, new envW false "en-US"
        = some ((try_init_com envW.coInitOk false).flag, r) ∧
      (envW.coCreateInstance = none → r = none) ∧
      (∀ f, envW.coCreateInstance = some f →
        (f.IsSupported "en-US" = none → r = none) ∧
        (f.IsSupported "en-US" = some false → r = none) ∧
        (f.IsSupported "en-US" = some true →
          r = (f.CreateSpellChecker "en-US").map Spellchecker.mk)) ∧
      (∀ c, r = some c → ∃ f, envW.coCreateInstance = some f ∧
        f.IsSupported "en-US" = some true ∧
        f.CreateSpellChecker "en-US" = some c.inner) :=
  new_failure_collapses envW false "en-US" (by decide)

/-- C4 counterexample: on the one-character text `"é"` with an
enumerated get-suggestions error at `start = 0`, `length = 1`, the
bound `start + length ≤ length(text)` in characters holds, yet `check`
panics: the source slices the UTF-8 string by byte indices, and byte 1
falls inside the two-byte character. -/
theorem check_panics_within_char_bounds :
    check ⟨svcE⟩ "é" = CallResult.panic ∧ 0 + 1 ≤ "é".length := by
  decide

/-- C4 (amended): for a get-suggestions error, when `start` and
`start + length` are in-range character-boundary byte offsets of the
UTF-8 encoding of `text` (which is what Rust's slicing requires, and
the condition under which `sliceBytes` succeeds), `check`'s resolution
of that error extracts exactly the characters spanning bytes
`[start, start + length)`, does not panic, and submits exactly that
substring to the service's suggestion operation. -/
theorem check_substring_byte_extraction (c : ISpellChecker) (text : String)
    (e : ISpellingError) (s l : Nat) (sub : List Char)
    (hs : e.StartIndex = some s) (hl : e.Length = some l)
    (ha : e.CorrectiveAction = some CORRECTIVE_ACTION_GET_SUGGESTIONS)
    (hsub : sliceBytes text.data s (s + l) = some sub) :
    (∃ pre post, text.data = pre ++ sub ++ post ∧
      utf8Len pre = s ∧ utf8Len sub = l) ∧
    (resolveErrorTrace c text e).1 ≠ CallResult.panic ∧
    (c.Suggest (String.mk sub) = none →
      (resolveErrorTrace c text e).1 = CallResult.fail) ∧
    (∀ entries, c.Suggest (String.mk sub) = some entries →
      (resolveErrorTrace c text e).1
        = CallResult.map (fun ss => ⟨s, l, Correction.Suggestions ss⟩)
            (suggestLoop entries).1) := by
  obtain ⟨os, ol, oa, orep⟩ := e
  obtain rfl : os = some s := hs
  obtain rfl : ol = some l := hl
  obtain rfl : oa = some CORRECTIVE_ACTION_GET_SUGGESTIONS := ha
  have hres : resolveErrorTrace c text
      ⟨some s, some l, some CORRECTIVE_ACTION_GET_SUGGESTIONS, orep⟩
      = match c.Suggest (String.mk sub) with
        | none => (CallResult.fail, [])
        | some entries =>
          (CallResult.map (fun ss => ⟨s, l, Correction.Suggestions ss⟩)
            (suggestLoop entries).1, (suggestLoop entries).2) := by
    simp [resolveErrorTrace, hsub, CORRECTIVE_ACTION_DELETE,
      CORRECTIVE_ACTION_GET_SUGGESTIONS, CORRECTIVE_ACTION_REPLACE]
  refine ⟨?_, ?_, ?_, ?_⟩
  · rcases sliceBytes_spec text.data s (s + l) sub hsub with ⟨pre, post, heq, hlp, hls⟩
    exact ⟨pre, post, heq, hlp, by omega⟩
  · intro hpan
    rw [hres] at hpan
    cases hsugg : c.Suggest (String.mk sub) with
    | none =>
      simp only [hsugg] at hpan
      exact absurd (show (CallResult.fail : CallResult SpellingError)
        = CallResult.panic from hpan) (by simp)
    | some entries =>
      simp only [hsugg] at hpan
      cases hq : (suggestLoop entries).1 with
      | panic => exact suggestLoop_ne_panic entries hq
      | fail =>
        simp only [hq] at hpan
        exact absurd (show (CallResult.fail : CallResult SpellingError)
          = CallResult.panic from hpan) (by simp)
      | ok ss =>
        simp only [hq] at hpan
        exact absurd (show (CallResult.ok
            (⟨s, l, Correction.Suggestions ss⟩ : SpellingError))
          = CallResult.panic from hpan) (by simp)
  · intro hsugg
    rw [hres]
    simp [hsugg]
  · intro entries hsugg
    rw [hres]
    simp [hsugg]

/-- C4 (amended) witness: extracting `"b"` (bytes `[1, 2)`) from
`"abcd"` for the concrete service `svcW`. -/
theorem check_substring_byte_extraction_witness :
    (∃ pre post, "abcd".data = pre ++ ['b'] ++ post ∧
      utf8Len pre = 1 ∧ utf8Len ['b'] = 1) ∧
    (resolveErrorTrace svcW "abcd" ⟨some 1, some 1, some 1, none⟩).1
      ≠ CallResult.panic ∧
    (svcW.Suggest (String.mk ['b']) = none →
      (resolveErrorTrace svcW "abcd" ⟨some 1, some 1, some 1, none⟩).1
        = CallResult.fail) ∧
    (∀ entries, svcW.Suggest (String.mk ['b']) = some entries →
      (resolveErrorTrace svcW "abcd" ⟨some 1, some 1, some 1, none⟩).1
        = CallResult.map (fun ss => ⟨1, 1, Correction.Suggestions ss⟩)
            (suggestLoop entries).1) :=
  check_substring_byte_extraction svcW "abcd" ⟨some 1, some 1, some 1, none⟩
    1 1 ['b'] rfl rfl rfl (by decide)

/-- C5 counterexample: when a suggestion buffer's `to_string()`
conversion fails, `check` returns `None` but the buffer obtained from
the service is never released (`?` returns before `CoTaskMemFree`):
the trace holds its acquisition and no matching free. -/
theorem check_leaks_on_conversion_failure :
    (checkTrace ⟨svcL⟩ "a").1 = CallResult.fail ∧
    (checkTrace ⟨svcL⟩ "a").2 = [Event.acquire ⟨5, none⟩] ∧
    Event.free ⟨5, none⟩ ∉ (checkTrace ⟨svcL⟩ "a").2 := by
  decide

/-- C5 (amended): on every path through `check` the ghost trace is a
sequence of acquire/release pairs in which each obtained buffer is
released exactly once, immediately after its contents are converted —
except that on a path where a conversion fails, the final obtained
buffer is left unreleased (the known leak); on every successful path
the trace is exactly the immediately-released pairs, so no buffer is
released twice and none is left unreleased. -/
theorem check_release_discipline (self : Spellchecker) (text : String) :
    AlmostPaired (checkTrace self text).2 ∧
    (∀ rs, (checkTrace self text).1 = CallResult.ok rs →
      Paired (checkTrace self text).2) := by
  constructor
  · simp only [checkTrace]
    cases self.inner.ComprehensiveCheck text with
    | none => exact AlmostPaired.done Paired.nil
    | some errors => exact checkLoop_almostPaired self.inner text errors
  · intro rs h
    simp only [checkTrace] at h ⊢
    cases hcc : self.inner.ComprehensiveCheck text with
    | none =>
      simp only [hcc] at h
      exact absurd (show (CallResult.fail : CallResult (List SpellingError))
        = CallResult.ok rs from h) (by simp)
    | some errors =>
      simp only [hcc] at h
      exact checkLoop_ok_paired self.inner text errors rs h

/-- C5 (amended) witness: on the successful concrete run every obtained
buffer is released exactly once, immediately after conversion. -/
theorem check_release_discipline_witness : Paired (checkTrace ⟨svcW⟩ "abcd").2 :=
  (check_release_discipline ⟨svcW⟩ "abcd").2 rsW (by decide)

/-- C6: the process-wide flag starts false, is true after any positive
number of invocations and never returns to false; across any number of
sequential `try_init_com` invocations the platform initialization call
is performed at most once, and an invocation that finds the flag set
performs no call and changes nothing. -/
theorem try_init_com_idempotent (coInitOk : Bool) :
    (run_inits coInitOk 0).1 = false ∧
    (∀ n, 1 ≤ n → (run_inits coInitOk n).1 = true) ∧
    (∀ n, (run_inits coInitOk n).2 ≤ 1) ∧
    try_init_com coInitOk true = ⟨true, false, false⟩ := by
  have key : ∀ n, run_inits coInitOk (n + 1) = (true, 1) := by
    intro n
    induction n with
    | zero => simp [run_inits, try_init_com]
    | succ m ih =>
      rw [run_inits, ih]
      simp [try_init_com]
  refine ⟨rfl, ?_, ?_, rfl⟩
  · intro n hn
    cases n with
    | zero => omega
    | succ m => simp [key m]
  · intro n
    cases n with
    | zero => simp [run_inits]
    | succ m => simp [key m]

/-- C6 witness: after five invocations the flag is set and the platform
call has been performed at most once. -/
theorem try_init_com_idempotent_witness :
    (run_inits true 5).1 = true ∧ (run_inits true 5).2 ≤ 1 :=
  ⟨(try_init_com_idempotent true).2.1 5 (by decide),
   (try_init_com_idempotent true).2.2.1 5⟩

/-- C7 counterexample: the wrapper passes service strings through
unchanged, so a service that yields an empty suggestion string produces
a returned error whose non-empty `Suggestions` list contains an empty
string, contradicting the claim. -/
theorem check_passes_through_empty_suggestion :
    check ⟨svcEm⟩ "a"
      = CallResult.ok [⟨0, 1, Correction.Suggestions [""]⟩] ∧
    ¬ (∀ s ∈ ([""] : List String), s ≠ "") := by
  decide

/-- C7 (amended): every returned correction is one of the four defined
variants, and provided every string the service hands out (replacement
buffers on enumerated errors, suggestion buffers) is non-empty, every
string inside a `Suggestions` list is non-empty and every `Replacement`
string is non-empty. -/
theorem check_correction_completeness (self : Spellchecker) (text : String)
    (rs : List SpellingError)
    (hsvc : serviceNonEmptyStrings self.inner)
    (h : check self text = CallResult.ok rs) :
    ∀ r ∈ rs,
      r.correction = Correction.None ∨ r.correction = Correction.Delete ∨
      (∃ ss, r.correction = Correction.Suggestions ss ∧ ∀ s ∈ ss, s ≠ "") ∨
      (∃ str, r.correction = Correction.Replacement str ∧ str ≠ "") := by
  intro r hr
  simp only [check, checkTrace] at h
  cases hcc : self.inner.ComprehensiveCheck text with
  | none =>
    simp only [hcc] at h
    exact absurd (show (CallResult.fail : CallResult (List SpellingError))
      = CallResult.ok rs from h) (by simp)
  | some errors =>
    simp only [hcc] at h
    have hf2 := checkLoop_ok_forall2 self.inner text errors rs h
    rcases forall2_mem_rel hf2 r hr with ⟨e, he, hok⟩
    rcases resolve_ok_matches self.inner text e r hok with
      ⟨s, l, a, hse, hle, hae, _, _, hcase⟩
    rcases hcase with ⟨_, hc⟩ |
      ⟨_, sub, entries, ss, hsub, hsugg, hq, hc⟩ |
      ⟨_, p, str, hrep, hcont, hc⟩ | ⟨_, _, _, hc⟩
    · exact Or.inr (Or.inl hc)
    · refine Or.inr (Or.inr (Or.inl ⟨ss, hc, ?_⟩))
      intro x hx
      rcases suggestLoop_ok_mem entries ss hq x hx with ⟨p, hpin, hpc⟩
      exact hsvc.2 (String.mk sub) entries hsugg (some p) hpin p rfl x hpc
    · exact Or.inr (Or.inr (Or.inr ⟨str, hc,
        hsvc.1 text errors hcc e he p hrep str hcont⟩))
    · exact Or.inl hc

/-- C7 (amended) witness: the completeness theorem applied to a
concrete service all of whose strings are non-empty. -/
theorem check_correction_completeness_witness :
    (⟨1, 1, Correction.Suggestions ["x", "y"]⟩ : SpellingError).correction
        = Correction.None ∨
      (⟨1, 1, Correction.Suggestions ["x", "y"]⟩ : SpellingError).correction
        = Correction.Delete ∨
      (∃ ss, (⟨1, 1, Correction.Suggestions ["x", "y"]⟩ : SpellingError).correction
        = Correction.Suggestions ss ∧ ∀ s ∈ ss, s ≠ "") ∨
      (∃ str, (⟨1, 1, Correction.Suggestions ["x", "y"]⟩ : SpellingError).correction
        = Correction.Replacement str ∧ str ≠ "") :=
  check_correction_completeness ⟨svcW⟩ "abcd" rsW
    (by
      constructor
      · intro t errors h e he p hp str hs
        injection h with h
        subst h
        simp only [List.mem_cons, List.not_mem_nil, or_false] at he
        rcases he with rfl | rfl | rfl | rfl
        · exact absurd hp (by simp)
        · exact absurd hp (by simp)
        · have hp' : some (⟨1, some "z"⟩ : PWSTR) = some p := hp
          obtain rfl := Option.some.inj hp'
          have hs' : some "z" = some str := hs
          obtain rfl := Option.some.inj hs'
          decide
        · exact absurd hp (by simp)
      · intro w entries h op hop p hp str hs
        injection h with h
        subst h
        simp only [List.mem_cons, List.not_mem_nil, or_false] at hop
        rcases hop with rfl | rfl
        · have hp' : some (⟨2, some "x"⟩ : PWSTR) = some p := hp
          obtain rfl := Option.some.inj hp'
          have hs' : some "x" = some str := hs
          obtain rfl := Option.some.inj hs'
          decide
        · have hp' : some (⟨3, some "y"⟩ : PWSTR) = some p := hp
          obtain rfl := Option.some.inj hp'
          have hs' : some "y" = some str := hs
          obtain rfl := Option.some.inj hs'
          decide)
    (by decide)
    ⟨1, 1, Correction.Suggestions ["x", "y"]⟩ (by decide)

/-- C8: for a fixed environment, locale and text, two independently
constructed checkers (the second constructed after the first, with the
flag state threaded through) produce equal `check` results — `check`
is a deterministic function of the locale and text given the same
service behaviour. -/
theorem check_deterministic (env : ComEnv) (com_init : Bool)
    (locale text : String) (f1 f2 : Bool) (c1 c2 : Spellchecker)
    (h1 : new env com_init locale = some (f1, some c1))
    (h2 : new env f1 locale = some (f2, some c2)) :
    check c1 text = check c2 text := by
  rcases new_some_inner env com_init locale f1 c1 h1 with ⟨fa, hfa, _, hca⟩
  rcases new_some_inner env f1 locale f2 c2 h2 with ⟨fb, hfb, _, hcb⟩
  rw [hfa] at hfb
  obtain rfl := Option.some.inj hfb
  rw [hca] at hcb
  have hinner := Option.some.inj hcb
  cases c1 with
  | mk i1 =>
    cases c2 with
    | mk i2 =>
      have : i1 = i2 := hinner
      subst this
      rfl

/-- C8 witness: two checkers constructed in sequence from the concrete
environment produce equal results on the test text. -/
theorem check_deterministic_witness :
    check ⟨svcW⟩ "abcd" = check ⟨svcW⟩ "abcd" :=
  check_deterministic envW false "en-US" "abcd" true true ⟨svcW⟩ ⟨svcW⟩ rfl rfl

/-- C9: when the platform initialization call fails on the first
invocation, the guard panics rather than returning a recoverable
value: `new` run from a fresh flag yields the panic outcome, not
`None`; and whenever `new` returns any value at all, the guard did not
panic — initialization failure is never surfaced as a `None` result. -/
theorem init_failure_fatal (env : ComEnv) (locale : String)
    (h : env.coInitOk = false) :
    (try_init_com env.coInitOk false).panicked = true ∧
    new env false locale = none ∧
    (∀ (com_init : Bool) (r : Bool × Option Spellchecker),
      new env com_init locale = some r →
      (try_init_com env.coInitOk com_init).panicked = false) := by
  refine ⟨by simp [try_init_com, h], by simp [new, try_init_com, h], ?_⟩
  intro ci r hr
  by_cases hp : (try_init_com env.coInitOk ci).panicked = true
  · rw [new] at hr
    simp only [hp] at hr
    exact absurd (show (none : Option (Bool × Option Spellchecker)) = some r from hr)
      (by simp)
  · simpa using hp

/-- C9 witness: the fatality theorem applied to the concrete failing
environment. -/
theorem init_failure_fatal_witness :
    (try_init_com envBad.coInitOk false).panicked = true ∧
    new envBad false "en-US" = none ∧
    (∀ (com_init : Bool) (r : Bool × Option Spellchecker),
      new envBad com_init "en-US" = some r →
      (try_init_com envBad.coInitOk com_init).panicked = false) :=
  init_failure_fatal envBad "en-US" rfl

/-- C10: `try_init_com` sets the shared flag before performing the
platform call: a first invocation always leaves the flag set, a first
invocation with a failing platform call performs the call and panics
with the flag already set, and every invocation that finds the flag set
performs no platform call — the initialization is never retried even
though it never succeeded. -/
theorem flag_set_before_platform_call (coInitOk : Bool) :
    (try_init_com coInitOk false).flag = true ∧
    try_init_com false false = ⟨true, true, true⟩ ∧
    try_init_com coInitOk true = ⟨true, false, false⟩ := by
  refine ⟨?_, rfl, rfl⟩
  cases coInitOk <;> rfl
